import Mathlib

/-!
# Verification of the asistant-pro real-estate deadline tracker

Shallow embedding of the deadline-calculation, reminder-scheduling,
subscription-gating and transaction-store logic of the repository
(`real-estate-server.js`, the SQLite server in `src/unnamed/part_000`,
and the Postgres/SQLite servers in `src/backend/server.js`), together
with proofs of the specification's claims about them.

Dates are modelled the way the JavaScript does arithmetic on them:
`Date` values are integer milliseconds since the epoch; a calendar day
index is obtained from a timestamp by floor division by 86 400 000
(`Math.floor(diff / (1000*60*60*24))` in the source).

The file is organised as definitions first, then the theorems.
-/

namespace AsistantPro

/-! ## Definitions: dates and the Deadline Calculator -/

/-- Milliseconds per day, as used in the source's day computations
(`1000 * 60 * 60 * 24`). -/
def msPerDay : Int := 86400000

/-- A timestamp in milliseconds since the epoch (JS `Date.getTime()`). -/
abbrev Timestamp := Int

/-- Calendar-day index of a timestamp: floor division by `msPerDay`,
matching JS `Math.floor(ms / 86400000)`. -/
def dayOf (ms : Timestamp) : Int := Int.fdiv ms msPerDay

/-- The five milestone kinds of a transaction. -/
inductive Milestone where
  | optionPeriodEnd
  | inspectionDate
  | appraisalDate
  | financingDeadline
  | closingDate
  deriving DecidableEq, Repr

/-- The four milestones that are derived from the contract date (the
closing date is taken as supplied, not derived). -/
inductive DerivedMilestone where
  | optionPeriodEnd
  | inspectionDate
  | appraisalDate
  | financingDeadline
  deriving DecidableEq, Repr

/-- Modelled from the spec: the pure per-milestone day-offset lookup table
of the Deadline Calculator.  The calculator lives in
`real-estate-automation.js`, which is required by `real-estate-server.js`
but absent from the sources; the spec fixes its form as
`milestone = contractDate + offsetDays(milestoneKind)` with offsets
observed around 7–10 days (the spec's worked example uses a 7-day
option period). -/
def offsetDays : DerivedMilestone → Int
  | .optionPeriodEnd => 7
  | .inspectionDate => 7
  | .appraisalDate => 10
  | .financingDeadline => 10

/-- The result object of the Deadline Calculator: the five milestone
dates, as timestamps (the HTTP layer renders them with
`toISOString().split('T')[0]`, i.e. at day granularity). -/
structure Deadlines where
  optionPeriodEnd : Timestamp
  inspectionDate : Timestamp
  appraisalDate : Timestamp
  financingDeadline : Timestamp
  closingDate : Timestamp
  deriving DecidableEq, Repr

/-- Modelled from the spec: the Deadline Calculator of the (missing)
automation service.  Given the contract date and the supplied closing
date it produces the result object: each derived milestone is the
contract date plus its fixed offset in calendar days, and the closing
date is passed through as supplied. -/
def calcDeadlines (contractDate closingDate : Timestamp) : Deadlines :=
  { optionPeriodEnd := contractDate + offsetDays .optionPeriodEnd * msPerDay
    inspectionDate := contractDate + offsetDays .inspectionDate * msPerDay
    appraisalDate := contractDate + offsetDays .appraisalDate * msPerDay
    financingDeadline := contractDate + offsetDays .financingDeadline * msPerDay
    closingDate := closingDate }

/-- Projection of a `Deadlines` object at a derived milestone kind. -/
def Deadlines.at (d : Deadlines) : DerivedMilestone → Timestamp
  | .optionPeriodEnd => d.optionPeriodEnd
  | .inspectionDate => d.inspectionDate
  | .appraisalDate => d.appraisalDate
  | .financingDeadline => d.financingDeadline

/-! ## Definitions: subscription gating (`checkSubscription` in the SQLite
server, `checkTrialStatus` in `src/backend/server.js`) -/

/-- The columns of a `users` row that the subscription gate reads.
`trial_extended` is an SQLite INTEGER flag (0 initially, 1 once
extended); `trial_start_date` is a stored timestamp, modelled in
milliseconds as `new Date(...)` yields. -/
structure User where
  subscription_status : String
  trial_start_date : Timestamp
  trial_extended : Int
  deriving DecidableEq, Repr

/-- `Math.floor((now - trialStart) / (1000 * 60 * 60 * 24))` from
`checkSubscription`: whole days elapsed since the trial started. -/
def daysSinceStart (now trialStart : Timestamp) : Int :=
  Int.fdiv (now - trialStart) msPerDay

/-- `user.trial_extended ? 22 : 15` — the trial length in days; the
SQLite integer is truthy exactly when nonzero. -/
def trialDays (u : User) : Int := if u.trial_extended ≠ 0 then 22 else 15

/-- Outcome of the gating middleware on a transaction endpoint. -/
inductive GateResult where
  | proceed
  | subscriptionExpired
  | userNotFound
  deriving DecidableEq, Repr

/-- `checkSubscription` from the SQLite server (`src/unnamed/part_000`
lines 85–107): look the user up; compute `trialExpired`; let the request
proceed when the subscription is active or the trial has not expired,
otherwise answer 403 `Subscription expired`. -/
def checkSubscription (user : Option User) (now : Timestamp) : GateResult :=
  match user with
  | none => .userNotFound
  | some u =>
      let trialExpired := daysSinceStart now u.trial_start_date ≥ trialDays u
      if u.subscription_status = "active" ∨ ¬ trialExpired then .proceed
      else .subscriptionExpired

/-- `POST /api/extend-trial`: `UPDATE users SET trial_extended = 1`. -/
def extendTrial (u : User) : User := { u with trial_extended := 1 }

/-! ## Definitions: the transaction store as rows of column values

The SQLite servers treat a transaction row generically (the update
endpoint builds its SET clause from the request body's keys), so a row
is modelled as a function from column name to stored value. -/

/-- A stored column value: SQL NULL, text, number, or a JSON object as
the request body may carry for `modified_deadlines` (a flat
milestone-name → date-text map). -/
inductive Value where
  | vnull
  | vstr (s : String)
  | vint (n : Int)
  | vmap (m : List (String × String))
  deriving DecidableEq, Repr

/-- A database row: column name → value. -/
abbrev Row := String → Value

/-- `JSON.stringify` restricted to the value shapes of the model (flat
string maps and scalars); string escaping is below the granularity of
the model. -/
def jsonStringifyVal : Value → String
  | .vnull => "null"
  | .vstr s => "\"" ++ s ++ "\""
  | .vint n => toString n
  | .vmap m =>
      "\x7b" ++ String.intercalate ","
        (m.map (fun p => "\"" ++ p.1 ++ "\":\"" ++ p.2 ++ "\"")) ++ "\x7d"

/-- The per-field value transformation of the SQLite update endpoint
(`src/unnamed/part_000` lines 354–359): `modified_deadlines` is passed
through `JSON.stringify`, every other field is stored as supplied. -/
def serializeField (k : String) (v : Value) : Value :=
  if k = "modified_deadlines" then .vstr (jsonStringifyVal v) else v

/-- Write one named column of a row. -/
def setField (r : Row) (k : String) (v : Value) : Row :=
  fun c => if c = k then serializeField k v else r c

/-- Apply the caller-supplied update fields (the request body's key/value
pairs, in `Object.keys` order) to a row. -/
def applyUpdates (ups : List (String × Value)) (r : Row) : Row :=
  ups.foldl (fun r p => setField r p.1 p.2) r

/-- The row filter of `WHERE id = ? AND user_id = ?`. -/
def rowMatches (tid uid : Int) (r : Row) : Bool :=
  decide (r "id" = Value.vint tid) && decide (r "user_id" = Value.vint uid)

/-- Effect of `UPDATE transactions SET ... WHERE id = ? AND user_id = ?`
on a single row. -/
def updateRow (tid uid : Int) (ups : List (String × Value)) (r : Row) : Row :=
  if rowMatches tid uid r then applyUpdates ups r else r

/-- `PUT /api/transactions/:id`: the dynamic update applied across the
store; only rows matching both the given id and the caller's user id are
touched. -/
def updateTransaction (store : List Row) (tid uid : Int)
    (ups : List (String × Value)) : List Row :=
  store.map (updateRow tid uid ups)

/-- `DELETE FROM transactions WHERE id = ? AND user_id = ?`. -/
def deleteTransaction (store : List Row) (tid uid : Int) : List Row :=
  store.filter (fun r => !(rowMatches tid uid r))

/-- `GET /api/transactions`:
`SELECT * FROM transactions WHERE user_id = ?`. -/
def getTransactions (store : List Row) (uid : Int) : List Row :=
  store.filter (fun r => decide (r "user_id" = Value.vint uid))

/-- The response shapes the endpoints can answer with. -/
inductive ApiResp where
  | success
  | notFound
  | serverError
  deriving DecidableEq, Repr

/-- The delete endpoint (`src/unnamed/part_000` lines 374–387,
`src/backend/server.js` lines 655–664): run the scoped DELETE and — the
callback receiving no error and performing no affected-row check —
answer `{success: true}` unconditionally. -/
def deleteEndpoint (store : List Row) (tid uid : Int) :
    List Row × ApiResp :=
  (deleteTransaction store tid uid, .success)

/-- The update endpoint (`src/unnamed/part_000` lines 347–371,
`src/backend/server.js` lines 635–652): run the scoped dynamic UPDATE
and answer `{success: true}` unconditionally, with no affected-row
check. -/
def updateEndpoint (store : List Row) (tid uid : Int)
    (ups : List (String × Value)) : List Row × ApiResp :=
  (updateTransaction store tid uid ups, .success)

/-- A concrete row holding just an id and an owner, every other column
NULL; used to instantiate the theorems. -/
def sampleRow (tid uid : Int) : Row :=
  fun c => if c = "id" then .vint tid
    else if c = "user_id" then .vint uid else .vnull

/-! ## Definitions: the Reminder Scanner (modelled from the spec)

The scanner lives in `real-estate-automation.js`, required by
`real-estate-server.js` but absent from the sources; the definitions in
this section are modelled from the spec, §4.2 and §5. -/

/-- A (transaction id, milestone) pair, the unit of reminder
idempotency. -/
abbrev Pair := Int × Milestone

/-- The `{sent, errors}` summary a scanner pass reports. -/
structure Summary where
  sent : Nat
  errors : Nat
  deriving DecidableEq, Repr

/-- A transaction as the scanner sees it: its id and, per milestone, the
already-resolved effective date (override if present else computed), as
a calendar-day index. -/
structure ScanTx where
  id : Int
  effDate : Milestone → Int

/-- The five milestone kinds, in a fixed scan order. -/
def allMilestones : List Milestone :=
  [.optionPeriodEnd, .inspectionDate, .appraisalDate, .financingDeadline,
    .closingDate]

/-- Modelled from the spec: the reminder window — a milestone is due when
its effective date is upcoming within the next 7 days and not yet
past. -/
def reminderWindow : Int := 7

/-- Modelled from the spec: the milestones of one transaction whose
days-until (effective date − current date) lie inside the reminder
window. -/
def dueMilestones (today : Int) (t : ScanTx) : List Milestone :=
  allMilestones.filter
    (fun m => decide (0 ≤ t.effDate m - today ∧
      t.effDate m - today ≤ reminderWindow))

/-- All (transaction, milestone) pairs a pass examines, in scan order. -/
def passPairs (today : Int) (txs : List ScanTx) : List Pair :=
  txs.flatMap (fun t => (dueMilestones today t).map (fun m => (t.id, m)))

/-- Modelled from the spec: processing of one due pair within a pass,
threading the summary, the sent-set, and the list of pairs handed to the
Notification Sender.  A pair already marked sent is skipped; otherwise
it is marked sent first (claimed before the sender is invoked, spec §5)
and then the sender is invoked: a successful send counts into `sent`, a
failed send counts into `errors` and the pass continues. -/
def stepPair (sendOk : Pair → Bool) (acc : Summary × List Pair × List Pair)
    (p : Pair) : Summary × List Pair × List Pair :=
  match acc with
  | (sum, sent, inv) =>
      if p ∈ sent then (sum, sent, inv)
      else
        if sendOk p then
          ({ sum with sent := sum.sent + 1 }, p :: sent, inv ++ [p])
        else
          ({ sum with errors := sum.errors + 1 }, p :: sent, inv ++ [p])

/-- Modelled from the spec: one Reminder Scanner pass over the stored
transactions, given the per-pair outcome of the Notification Sender.
Returns the `{sent, errors}` summary, the updated sent-set, and the
pairs for which the sender was invoked. -/
def scanPass (sendOk : Pair → Bool) (today : Int) (txs : List ScanTx)
    (sent : List Pair) : Summary × List Pair × List Pair :=
  (passPairs today txs).foldl (stepPair sendOk) (⟨0, 0⟩, sent, [])

/-- Modelled from the spec: repeated scanner passes (periodic timer or
manual trigger), each over the then-current date and store, threading
the sent-state; returns the final sent-set and the concatenation of all
sender invocations. -/
def runPasses (sendOk : Pair → Bool) (inputs : List (Int × List ScanTx))
    (sent : List Pair) : List Pair × List Pair :=
  match inputs with
  | [] => (sent, [])
  | (today, txs) :: rest =>
      let r := scanPass sendOk today txs sent
      let after := runPasses sendOk rest r.2.1
      (after.1, r.2.2 ++ after.2)

/-- Modelled from the spec: one scanner trigger against the transaction
store.  The scanner re-reads the store through a read-only view that
resolves each transaction's effective dates, and updates only its own
sent-state; it never creates or deletes transactions. -/
def scannerStep (sendOk : Pair → Bool) (today : Int)
    (view : List Row → List ScanTx) (store : List Row)
    (sent : List Pair) :
    List Row × (Summary × List Pair × List Pair) :=
  (store, scanPass sendOk today (view store) sent)

/-- The response of `POST /api/trigger-reminders`
(`real-estate-server.js` lines 145–161): one synchronous scanner pass,
whose `{sent, errors}` summary is returned to the caller. -/
def triggerReminders (sendOk : Pair → Bool) (today : Int)
    (txs : List ScanTx) (sent : List Pair) : Summary :=
  (scanPass sendOk today txs sent).1

/-- Two concrete transactions whose milestones all fall 5 days after
day 95; used to instantiate the scanner theorems. -/
def witnessTxs : List ScanTx := [⟨1, fun _ => 100⟩, ⟨2, fun _ => 100⟩]

/-- A Notification Sender outcome that fails exactly on transaction 1's
option-period milestone; used to instantiate the scanner theorems. -/
def witnessSendOk : Pair → Bool :=
  fun q => decide ¬(q = (1, Milestone.optionPeriodEnd))

/-! ## Definitions: stored transactions, effective dates, creation and
list-price parsing -/

/-- The milestone-date columns of a stored transaction row in the SQLite
server, plus the stored override map.  `modified_deadlines` is the map
denoted by the stored JSON text (`none` models a NULL/empty column). -/
structure TxRecord where
  option_period_end : Option String
  inspection_date : Option String
  appraisal_date : Option String
  financing_deadline : Option String
  closing_date : String
  modified_deadlines : Option (List (String × String))
  deriving DecidableEq, Repr

/-- The transaction object `GET /api/transactions` answers with
(`src/unnamed/part_000` lines 307–311): all row fields are spread
unchanged, and `modified_deadlines` is replaced by its parsed map
(`{}` when the stored text is NULL/empty). -/
structure TxView where
  option_period_end : Option String
  inspection_date : Option String
  appraisal_date : Option String
  financing_deadline : Option String
  closing_date : String
  modified_deadlines : List (String × String)
  deriving DecidableEq, Repr

/-- The row→object mapping of `GET /api/transactions`:
`{...row, modified_deadlines: row.modified_deadlines ?
JSON.parse(row.modified_deadlines) : \x7b\x7d}`. -/
def rowToView (t : TxRecord) : TxView :=
  { option_period_end := t.option_period_end
    inspection_date := t.inspection_date
    appraisal_date := t.appraisal_date
    financing_deadline := t.financing_deadline
    closing_date := t.closing_date
    modified_deadlines := t.modified_deadlines.getD [] }

/-- The override-map key of each milestone (the milestone column
names). -/
def milestoneKey : Milestone → String
  | .optionPeriodEnd => "option_period_end"
  | .inspectionDate => "inspection_date"
  | .appraisalDate => "appraisal_date"
  | .financingDeadline => "financing_deadline"
  | .closingDate => "closing_date"

/-- The computed (stored) date of a milestone of the answered object,
before overrides. -/
def computedDate (v : TxView) : Milestone → Option String
  | .optionPeriodEnd => v.option_period_end
  | .inspectionDate => v.inspection_date
  | .appraisalDate => v.appraisal_date
  | .financingDeadline => v.financing_deadline
  | .closingDate => some v.closing_date

/-- The computed (stored) date of a milestone on the stored row. -/
def computedDateRec (t : TxRecord) : Milestone → Option String
  | .optionPeriodEnd => t.option_period_end
  | .inspectionDate => t.inspection_date
  | .appraisalDate => t.appraisal_date
  | .financingDeadline => t.financing_deadline
  | .closingDate => some t.closing_date

/-- Modelled from the spec: the effective date of a milestone — the
override value from the modified-deadlines map when one is present for
the milestone, else the computed value.  (The resolution itself happens
in the missing automation/frontend consumer; the spec fixes it as
override-if-present-else-computed.) -/
def effectiveDate (v : TxView) (m : Milestone) : Option String :=
  match v.modified_deadlines.lookup (milestoneKey m) with
  | some d => some d
  | none => computedDate v m

/-- A stored transaction with an overridden option-period end, used to
instantiate the effective-date theorem. -/
def overriddenTx : TxRecord :=
  { option_period_end := some "2024-01-08"
    inspection_date := some "2024-01-08"
    appraisal_date := some "2024-01-11"
    financing_deadline := some "2024-01-11"
    closing_date := "2024-02-15"
    modified_deadlines := some [("option_period_end", "2024-02-01")] }

/-- The body of `POST /api/transactions` (SQLite server): the fields the
endpoint destructures from the request; `none` models an absent field
(JSON `undefined`/`null`, bound as SQL NULL). -/
structure CreateBody where
  property_address : Option String
  client_name : Option String
  client_email : Option String
  transaction_type : Option String
  contract_date : Option String
  closing_date : Option String
  list_price : Option Int
  option_period_end : Option String
  inspection_date : Option String
  appraisal_date : Option String
  financing_deadline : Option String
  notes : Option String
  deriving DecidableEq, Repr

/-- Whether the INSERT of the SQLite create endpoint violates a NOT NULL
constraint of the `transactions` schema (`src/unnamed/part_000` lines
43–61): `user_id`, `property_address`, `client_name`,
`transaction_type`, `contract_date` and `closing_date` are declared
NOT NULL; `list_price`, `notes` and `modified_deadlines` are always
bound non-null by the endpoint's `|| 0`, `|| ''` and `'\x7b\x7d'`
defaults, and the milestone columns are nullable in this schema. -/
def createViolatesNotNull (b : CreateBody) : Bool :=
  b.property_address.isNone || b.client_name.isNone ||
    b.transaction_type.isNone || b.contract_date.isNone ||
    b.closing_date.isNone

/-- Outcome of the create endpoint. -/
inductive CreateResult where
  | created
  | creationFailed
  deriving DecidableEq, Repr

/-- `POST /api/transactions` of the SQLite server (lines 319–344): run
the INSERT with the supplied values as they are; the callback answers a
generic 500 `Failed to create transaction` when the INSERT errs (NOT
NULL violation), else `{id, success: true}`.  The endpoint performs no
date validation and no milestone computation. -/
def createTransaction (b : CreateBody) : CreateResult :=
  if createViolatesNotNull b then .creationFailed else .created

/-- Split a character list into the dash-separated groups
(the semantics of `splitOn "-"` for the one-character separator). -/
def splitDashes (cs : List Char) : List (List Char) :=
  match cs with
  | [] => [[]]
  | c :: rest =>
      let r := splitDashes rest
      if c = '-' then [] :: r
      else
        match r with
        | [] => [[c]]
        | g :: gs => (c :: g) :: gs

/-- Decimal value of a digit run. -/
def digitsToNat (cs : List Char) : Nat :=
  cs.foldl (fun acc c => acc * 10 + (c.toNat - 48)) 0

/-- A well-formed calendar date string `YYYY-MM-DD` (the shape the
frontend submits and JS `new Date(...)` parses as a valid date): four
digits, dash, two digits in 01–12, dash, two digits in 01–31. -/
def validISODate (s : String) : Bool :=
  match splitDashes s.data with
  | [ys, ms, ds] =>
      (ys.length == 4) && (ms.length == 2) && (ds.length == 2) &&
      ys.all Char.isDigit && ms.all Char.isDigit && ds.all Char.isDigit &&
      decide (1 ≤ digitsToNat ms) && decide (digitsToNat ms ≤ 12) &&
      decide (1 ≤ digitsToNat ds) && decide (digitsToNat ds ≤ 31)
  | _ => false

/-- Modelled from the spec: `addTransaction` of the (missing) automation
service behind `POST /api/add-transaction`: it reports an explicit
error when the contract date is absent or not a valid date — before any
milestone computation — and otherwise runs the Deadline Calculator and
never fails.  Turning a valid date string into its timestamp is the JS
`Date` library's job, abstracted as the `contractMsOf` argument. -/
def addTransaction (contract_date : Option String)
    (contractMsOf : String → Timestamp) (closingMs : Timestamp) :
    Except String Deadlines :=
  match contract_date with
  | none => .error "invalid contract date"
  | some s =>
      if validISODate s then .ok (calcDeadlines (contractMsOf s) closingMs)
      else .error "invalid contract date"

/-- A create-request body whose contract date is present but not a valid
date, every NOT NULL field supplied. -/
def invalidDateBody : CreateBody :=
  { property_address := some "1234 Main St"
    client_name := some "John Smith"
    client_email := none
    transaction_type := some "purchase"
    contract_date := some "not-a-date"
    closing_date := some "2024-02-01"
    list_price := some 100
    option_period_end := none
    inspection_date := none
    appraisal_date := none
    financing_deadline := none
    notes := none }

/-- `parseFloat` restricted to the numeric shapes of the model: an
optional leading minus sign followed by a leading digit run; `none`
models `NaN` (absent input, or no leading digits).  Fractional parts
are below the granularity of the model — the modelled inputs are
integer strings, on which this agrees with `parseFloat`. -/
def parseFloatInt (v : Option String) : Option Int :=
  match v with
  | none => none
  | some s =>
      let neg : Bool := match s.data with
        | '-' :: _ => true
        | _ => false
      let digits : List Char := match s.data with
        | '-' :: rest => rest
        | cs => cs
      let run := digits.takeWhile Char.isDigit
      if run.isEmpty then none
      else
        let n : Nat := run.foldl (fun acc c => acc * 10 + (c.toNat - 48)) 0
        some (if neg then -(n : Int) else (n : Int))

/-- `list_price: parseFloat(req.body.list_price) || 0` from
`POST /api/add-transaction` (`real-estate-server.js` line 99): `NaN`
is falsy and falls back to `0`; so are `0` and `-0`, which the `|| 0`
maps to `0` as well. -/
def storedListPrice (v : Option String) : Int :=
  match parseFloatInt v with
  | none => 0
  | some n => if n = 0 then 0 else n

/-! ## Theorems -/

lemma msPerDay_pos : (0 : Int) < msPerDay := by decide

/-- Adding a whole number of days shifts the calendar-day index by exactly
that number, for every millisecond-valued timestamp: this is the
"no timezone drift at day granularity" fact. -/
lemma dayOf_add_days (ms : Timestamp) (k : Int) :
    dayOf (ms + k * msPerDay) = dayOf ms + k := by
  unfold dayOf
  rw [Int.fdiv_eq_ediv _ (Int.le_of_lt msPerDay_pos),
    Int.fdiv_eq_ediv _ (Int.le_of_lt msPerDay_pos),
    Int.add_mul_ediv_right _ _ (Int.ne_of_gt msPerDay_pos)]

/-- C1.  For every contract date and every derived milestone kind, the
computed milestone equals the contract date plus the fixed offset from
the pure lookup table — exactly, as a timestamp, and hence also at
calendar-day granularity with no drift — while the closing date is the
supplied one, not derived.  The calculator is a pure function, so the
result is deterministic in its inputs. -/
theorem calcDeadlines_spec (contractDate closingDate : Timestamp)
    (k : DerivedMilestone) :
    (calcDeadlines contractDate closingDate).at k
        = contractDate + offsetDays k * msPerDay ∧
    dayOf ((calcDeadlines contractDate closingDate).at k)
        = dayOf contractDate + offsetDays k ∧
    (calcDeadlines contractDate closingDate).closingDate = closingDate := by
  refine ⟨?_, ?_, rfl⟩
  · cases k <;> rfl
  · cases k <;> exact dayOf_add_days contractDate _

/-- C6.  A transaction endpoint is reachable iff the subscription is
active or the whole days elapsed since trial start are fewer than the
trial length (15 days, 22 once extended); otherwise the gate answers the
subscription-expired error.  Extending the trial sets the length to 22,
and extending is idempotent: a repeat extension has no further effect. -/
theorem checkSubscription_spec (u : User) (now : Timestamp) :
    (checkSubscription (some u) now = .proceed ↔
      (u.subscription_status = "active" ∨
        daysSinceStart now u.trial_start_date < trialDays u)) ∧
    (checkSubscription (some u) now ≠ .proceed →
      checkSubscription (some u) now = .subscriptionExpired) ∧
    (u.trial_extended = 0 → trialDays u = 15) ∧
    trialDays (extendTrial u) = 22 ∧
    extendTrial (extendTrial u) = extendTrial u := by
  refine ⟨?_, ?_, ?_, rfl, rfl⟩
  · unfold checkSubscription
    by_cases h : u.subscription_status = "active" ∨
        ¬ daysSinceStart now u.trial_start_date ≥ trialDays u
    · simp only [h, if_pos]
      constructor
      · intro _
        rcases h with h | h
        · exact Or.inl h
        · exact Or.inr (lt_of_not_le h)
      · intro _; trivial
    · simp only [h, if_neg]
      constructor
      · intro hc; cases hc
      · intro hc
        exfalso
        apply h
        rcases hc with hc | hc
        · exact Or.inl hc
        · exact Or.inr (not_le_of_lt hc)
  · unfold checkSubscription
    by_cases h : u.subscription_status = "active" ∨
        ¬ daysSinceStart now u.trial_start_date ≥ trialDays u
    · simp only [h, if_pos]
      intro hc; exact absurd rfl hc
    · simp only [h, if_neg]
      intro _; rfl
  · intro h; unfold trialDays; rw [h]; simp

/-- Concrete instantiation of `checkSubscription_spec`: a fresh trial
user on day 3 of the trial. -/
theorem checkSubscription_spec_witness :
    (checkSubscription (some ⟨"trial", 0, 0⟩) (3 * msPerDay) = .proceed ↔
      ((("trial" : String) = "active") ∨
        daysSinceStart (3 * msPerDay) 0 < trialDays ⟨"trial", 0, 0⟩)) ∧
    trialDays ⟨"trial", 0, 0⟩ = 15 := by
  have h := checkSubscription_spec ⟨"trial", 0, 0⟩ (3 * msPerDay)
  exact ⟨h.1, h.2.2.1 rfl⟩

lemma rowMatches_iff (tid uid : Int) (r : Row) :
    rowMatches tid uid r = true ↔
      (r "id" = Value.vint tid ∧ r "user_id" = Value.vint uid) := by
  unfold rowMatches
  rw [Bool.and_eq_true, decide_eq_true_iff, decide_eq_true_iff]

lemma applyUpdates_cons (p : String × Value) (rest : List (String × Value))
    (r : Row) :
    applyUpdates (p :: rest) r = applyUpdates rest (setField r p.1 p.2) := rfl

/-- A column not named among the update keys is unchanged by
`applyUpdates`. -/
lemma applyUpdates_of_not_mem (ups : List (String × Value)) (r : Row)
    (c : String) (h : c ∉ ups.map Prod.fst) :
    applyUpdates ups r c = r c := by
  induction ups generalizing r with
  | nil => rfl
  | cons p rest ih =>
      simp only [List.map_cons, List.mem_cons, not_or] at h
      rw [applyUpdates_cons, ih _ h.2]
      unfold setField
      rw [if_neg h.1]

/-- A column named among the update keys (keys distinct) receives the
serialized supplied value. -/
lemma applyUpdates_of_mem (ups : List (String × Value)) (r : Row)
    (k : String) (v : Value) (hnd : (ups.map Prod.fst).Nodup)
    (h : (k, v) ∈ ups) :
    applyUpdates ups r k = serializeField k v := by
  induction ups generalizing r with
  | nil => cases h
  | cons p rest ih =>
      simp only [List.map_cons, List.nodup_cons] at hnd
      rw [applyUpdates_cons]
      rcases List.mem_cons.mp h with h1 | h1
      · have hk : p.1 = k := by rw [← h1]
        have hnot : k ∉ rest.map Prod.fst := hk ▸ hnd.1
        rw [applyUpdates_of_not_mem rest _ k hnot]
        unfold setField
        rw [hk, if_pos rfl, ← h1]
      · exact ih _ hnd.2 h1

/-- With distinct row ids, the `WHERE id = ? AND user_id = ?` filter
matches at most one row. -/
lemma filter_rowMatches_length_le_one (store : List Row) (tid uid : Int)
    (hids : (store.map (fun r => r "id")).Nodup) :
    (store.filter (fun r => rowMatches tid uid r)).length ≤ 1 := by
  induction store with
  | nil => simp
  | cons r rest ih =>
      simp only [List.map_cons, List.nodup_cons] at hids
      by_cases h : rowMatches tid uid r = true
      · rw [List.filter_cons_of_pos h]
        have hnil : rest.filter (fun x => rowMatches tid uid x) = [] := by
          rw [List.filter_eq_nil_iff]
          intro x hx hpx
          apply hids.1
          have hxid : x "id" = Value.vint tid := ((rowMatches_iff tid uid x).mp hpx).1
          have hrid : r "id" = Value.vint tid := ((rowMatches_iff tid uid r).mp h).1
          rw [← hrid] at hxid
          rw [← hxid]
          exact List.mem_map_of_mem _ hx
        rw [hnil]
        simp
      · rw [List.filter_cons_of_neg h]
        exact ih hids.2

/-- C10.  The dynamic `PUT /api/transactions/:id` update writes exactly
the columns named as keys of the request body — `modified_deadlines`
passed through `JSON.stringify`, every other named column stored as
supplied, with no allow-list restricting which column names the caller
may use (so `id`, `user_id` or `created_at` are written like any other)
— on the rows matching both the given id and the caller's user id (at
most one row when ids are distinct), all other rows and all unnamed
columns unchanged. -/
theorem updateTransaction_frame (store : List Row) (tid uid : Int)
    (ups : List (String × Value))
    (hnd : (ups.map Prod.fst).Nodup)
    (hids : (store.map (fun r => r "id")).Nodup) :
    updateTransaction store tid uid ups = store.map (updateRow tid uid ups) ∧
    (∀ r : Row, rowMatches tid uid r = false → updateRow tid uid ups r = r) ∧
    (∀ (r : Row) (c : String), c ∉ ups.map Prod.fst →
      updateRow tid uid ups r c = r c) ∧
    (∀ (r : Row) (k : String) (v : Value), (k, v) ∈ ups →
      updateRow tid uid ups r k =
        (if rowMatches tid uid r then
          (if k = "modified_deadlines" then Value.vstr (jsonStringifyVal v)
            else v)
          else r k)) ∧
    (store.filter (fun r => rowMatches tid uid r)).length ≤ 1 := by
  refine ⟨rfl, ?_, ?_, ?_, filter_rowMatches_length_le_one store tid uid hids⟩
  · intro r hr
    unfold updateRow
    rw [hr]
    simp
  · intro r c hc
    unfold updateRow
    by_cases h : rowMatches tid uid r = true
    · rw [h]
      simp only [if_true]
      exact applyUpdates_of_not_mem ups r c hc
    · rw [Bool.not_eq_true] at h
      rw [h]
      simp
  · intro r k v hkv
    unfold updateRow
    by_cases h : rowMatches tid uid r = true
    · rw [h]
      simp only [if_true]
      rw [applyUpdates_of_mem ups r k v hnd hkv]
      rfl
    · rw [Bool.not_eq_true] at h
      rw [h]
      simp

/-- Concrete instantiation of `updateTransaction_frame`: updating
`client_name` on a one-row store leaves the `notes` column of the row
unchanged. -/
theorem updateTransaction_frame_witness :
    updateRow 1 2 [("client_name", Value.vstr "x")] (sampleRow 1 2) "notes"
      = sampleRow 1 2 "notes" := by
  have h := updateTransaction_frame [sampleRow 1 2] 1 2
    [("client_name", Value.vstr "x")] (by simp) (by simp)
  exact h.2.2.1 (sampleRow 1 2) "notes" (by simp)

/-- C8 counterexample.  Deleting a transaction id that does not exist
(empty store) answers `{success: true}`: no not-found error is
reported, refuting the claim at this input. -/
theorem deleteEndpoint_missing_id_no_notFound :
    deleteEndpoint ([] : List Row) 1 2 = ([], .success) ∧
    (deleteEndpoint ([] : List Row) 1 2).2 ≠ ApiResp.notFound := by
  refine ⟨rfl, ?_⟩
  intro h
  cases h

/-- C8 amended.  For every update or delete request that references a
transaction id that does not exist or is not owned by the caller, the
store is left unchanged (zero rows affected) and the endpoint answers
`{success: true}` — no not-found error is reported and no retry is
performed (the handler answers the caller directly from the single
callback). -/
theorem updateDelete_missing_id_success (store : List Row) (tid uid : Int)
    (ups : List (String × Value))
    (h : ∀ r ∈ store, rowMatches tid uid r = false) :
    deleteEndpoint store tid uid = (store, .success) ∧
    updateEndpoint store tid uid ups = (store, .success) := by
  constructor
  · unfold deleteEndpoint deleteTransaction
    rw [List.filter_eq_self.mpr]
    intro r hr
    rw [h r hr]
    rfl
  · unfold updateEndpoint updateTransaction
    have hmap : store.map (updateRow tid uid ups) = store := by
      conv_rhs => rw [← List.map_id store]
      apply List.map_congr_left
      intro r hr
      unfold updateRow
      rw [h r hr]
      simp
    rw [hmap]

/-- Concrete instantiation of `updateDelete_missing_id_success`: a
one-row store owned by user 9 with id 5, and a delete request for
id 1 by user 2. -/
theorem updateDelete_missing_id_success_witness :
    deleteEndpoint [sampleRow 5 9] 1 2 = ([sampleRow 5 9], .success) := by
  have h := updateDelete_missing_id_success [sampleRow 5 9] 1 2 []
    (by
      intro r hr
      rw [List.mem_singleton] at hr
      rw [hr]
      decide)
  exact h.1

/-- C7.  Every transaction operation is scoped to the caller: the
transaction list returns only rows whose `user_id` is the caller's; the
scoped update leaves every row of a different user unchanged (and in the
store); the scoped delete retains every row of a different user; and the
Reminder Scanner's trigger returns the store unchanged — it never
creates or deletes transactions. -/
theorem ownership_spec (store : List Row) (uid tid : Int)
    (ups : List (String × Value)) (sendOk : Pair → Bool) (today : Int)
    (view : List Row → List ScanTx) (sent : List Pair) :
    (∀ r ∈ getTransactions store uid, r "user_id" = Value.vint uid) ∧
    (∀ r : Row, r "user_id" ≠ Value.vint uid →
      updateRow tid uid ups r = r) ∧
    (∀ r ∈ store, r "user_id" ≠ Value.vint uid →
      r ∈ updateTransaction store tid uid ups) ∧
    (∀ r ∈ store, r "user_id" ≠ Value.vint uid →
      r ∈ deleteTransaction store tid uid) ∧
    (scannerStep sendOk today view store sent).1 = store := by
  have hmatch : ∀ r : Row, r "user_id" ≠ Value.vint uid →
      rowMatches tid uid r = false := by
    intro r hne
    rw [← Bool.not_eq_true, rowMatches_iff]
    intro hc
    exact hne hc.2
  refine ⟨?_, ?_, ?_, ?_, rfl⟩
  · intro r hr
    unfold getTransactions at hr
    have := List.of_mem_filter hr
    exact of_decide_eq_true this
  · intro r hne
    unfold updateRow
    rw [hmatch r hne]
    simp
  · intro r hr hne
    unfold updateTransaction
    have hfix : updateRow tid uid ups r = r := by
      unfold updateRow
      rw [hmatch r hne]
      simp
    have := List.mem_map_of_mem (updateRow tid uid ups) hr
    rwa [hfix] at this
  · intro r hr hne
    unfold deleteTransaction
    apply List.mem_filter.mpr
    refine ⟨hr, ?_⟩
    rw [hmatch r hne]
    rfl

/-- Concrete instantiation of `ownership_spec`: user 7's delete keeps
user 2's row. -/
theorem ownership_spec_witness :
    sampleRow 1 2 ∈ deleteTransaction [sampleRow 1 2] 1 7 := by
  have h := ownership_spec [sampleRow 1 2] 7 1 [] (fun _ => true) 0
    (fun _ => []) []
  exact h.2.2.2.1 (sampleRow 1 2) (List.mem_singleton.mpr rfl) (by decide)

/-- Case analysis of one pair-processing step: a pair already in the
sent-set leaves the state untouched; a fresh pair is marked sent and
handed to the sender. -/
lemma stepPair_cases (sendOk : Pair → Bool)
    (acc : Summary × List Pair × List Pair) (q : Pair) :
    (q ∈ acc.2.1 ∧ stepPair sendOk acc q = acc) ∨
    (q ∉ acc.2.1 ∧ (stepPair sendOk acc q).2.1 = q :: acc.2.1 ∧
      (stepPair sendOk acc q).2.2 = acc.2.2 ++ [q]) := by
  obtain ⟨sum, sent, inv⟩ := acc
  unfold stepPair
  dsimp only
  by_cases h : q ∈ sent
  · rw [if_pos h]
    exact Or.inl ⟨h, rfl⟩
  · rw [if_neg h]
    by_cases hs : sendOk q = true
    · rw [if_pos hs]
      exact Or.inr ⟨h, rfl, rfl⟩
    · rw [if_neg hs]
      exact Or.inr ⟨h, rfl, rfl⟩

/-- The sent-set only grows during a pass. -/
lemma foldl_stepPair_sent_mono (sendOk : Pair → Bool) (ps : List Pair)
    (acc : Summary × List Pair × List Pair) :
    acc.2.1 ⊆ (ps.foldl (stepPair sendOk) acc).2.1 := by
  induction ps generalizing acc with
  | nil => exact fun _ h => h
  | cons q rest ih =>
      rw [List.foldl_cons]
      intro x hx
      apply ih (stepPair sendOk acc q)
      rcases stepPair_cases sendOk acc q with ⟨_, he⟩ | ⟨_, hs, _⟩
      · rw [he]; exact hx
      · rw [hs]; exact List.mem_cons_of_mem q hx

/-- Pass invariant for a fixed pair `p`: the sender-invocation list
contains `p` at most once, any occurrence is backed by the sent-set, and
if `p` was already sent at the start of the fold its invocation count
does not change. -/
lemma foldl_stepPair_once (sendOk : Pair → Bool) (ps : List Pair)
    (acc : Summary × List Pair × List Pair) (p : Pair)
    (hmem : p ∈ acc.2.2 → p ∈ acc.2.1)
    (hcnt : acc.2.2.count p ≤ 1) :
    ((ps.foldl (stepPair sendOk) acc).2.2.count p ≤ 1 ∧
      (p ∈ (ps.foldl (stepPair sendOk) acc).2.2 →
        p ∈ (ps.foldl (stepPair sendOk) acc).2.1)) ∧
    (p ∈ acc.2.1 →
      (ps.foldl (stepPair sendOk) acc).2.2.count p = acc.2.2.count p) := by
  induction ps generalizing acc with
  | nil => exact ⟨⟨hcnt, hmem⟩, fun _ => rfl⟩
  | cons q rest ih =>
      rw [List.foldl_cons]
      rcases stepPair_cases sendOk acc q with ⟨hq, he⟩ | ⟨hq, hs, hi⟩
      · rw [he]
        exact ih acc hmem hcnt
      · by_cases hpq : p = q
        · subst hpq
          have hp0 : acc.2.2.count p = 0 :=
            List.count_eq_zero.mpr (fun hc => hq (hmem hc))
          have hmem' : p ∈ (stepPair sendOk acc p).2.2 →
              p ∈ (stepPair sendOk acc p).2.1 := by
            intro _
            rw [hs]
            exact List.mem_cons_self p _
          have hcnt' : (stepPair sendOk acc p).2.2.count p ≤ 1 := by
            rw [hi, List.count_append, hp0]
            simp
          refine ⟨(ih _ hmem' hcnt').1, ?_⟩
          intro hp
          exact absurd hp hq
        · have hmem' : p ∈ (stepPair sendOk acc q).2.2 →
              p ∈ (stepPair sendOk acc q).2.1 := by
            intro hc
            rw [hi] at hc
            rcases List.mem_append.mp hc with hc | hc
            · rw [hs]
              exact List.mem_cons_of_mem q (hmem hc)
            · exact absurd (List.mem_singleton.mp hc) hpq
          have hq1 : List.count p [q] = 0 :=
            List.count_eq_zero.mpr (fun hc => hpq (List.mem_singleton.mp hc))
          have hcnt' : (stepPair sendOk acc q).2.2.count p ≤ 1 := by
            rw [hi, List.count_append, hq1]
            simpa using hcnt
          refine ⟨(ih _ hmem' hcnt').1, ?_⟩
          intro hp
          have hps : p ∈ (stepPair sendOk acc q).2.1 := by
            rw [hs]
            exact List.mem_cons_of_mem q hp
          have := (ih _ hmem' hcnt').2 hps
          rw [this, hi, List.count_append, hq1]
          exact Nat.add_zero _

/-- Single-pass consequences of the invariant, starting from an empty
invocation list. -/
lemma scanPass_once (sendOk : Pair → Bool) (today : Int)
    (txs : List ScanTx) (sent : List Pair) (p : Pair) :
    (scanPass sendOk today txs sent).2.2.count p ≤ 1 ∧
    (p ∈ (scanPass sendOk today txs sent).2.2 →
      p ∈ (scanPass sendOk today txs sent).2.1) ∧
    (p ∈ sent → (scanPass sendOk today txs sent).2.2.count p = 0) ∧
    sent ⊆ (scanPass sendOk today txs sent).2.1 := by
  have h := foldl_stepPair_once sendOk (passPairs today txs)
    (⟨0, 0⟩, sent, []) p (by intro hc; cases hc) (by simp)
  exact ⟨h.1.1, h.1.2, fun hp => h.2 hp,
    foldl_stepPair_sent_mono sendOk (passPairs today txs) (⟨0, 0⟩, sent, [])⟩

/-- C3.  Across any sequence of scanner passes — including back-to-back
passes with no intervening date change — each (transaction, milestone)
pair is handed to the Notification Sender at most once, and a pair
already marked sent is never handed to the sender again. -/
theorem reminder_at_most_once (sendOk : Pair → Bool)
    (inputs : List (Int × List ScanTx)) (sent : List Pair) (p : Pair) :
    (runPasses sendOk inputs sent).2.count p ≤ 1 ∧
    (p ∈ sent → (runPasses sendOk inputs sent).2.count p = 0) := by
  induction inputs generalizing sent with
  | nil => exact ⟨by simp [runPasses], fun _ => by simp [runPasses]⟩
  | cons input rest ih =>
      obtain ⟨today, txs⟩ := input
      have hpass := scanPass_once sendOk today txs sent p
      have hrec := ih (scanPass sendOk today txs sent).2.1
      have hsplit : (runPasses sendOk ((today, txs) :: rest) sent).2
          = (scanPass sendOk today txs sent).2.2
            ++ (runPasses sendOk rest (scanPass sendOk today txs sent).2.1).2 := rfl
      constructor
      · rw [hsplit, List.count_append]
        by_cases hp : p ∈ (scanPass sendOk today txs sent).2.2
        · have h1 : (runPasses sendOk rest
              (scanPass sendOk today txs sent).2.1).2.count p = 0 :=
            hrec.2 (hpass.2.1 hp)
          rw [h1]
          simpa using hpass.1
        · have h0 : (scanPass sendOk today txs sent).2.2.count p = 0 :=
            List.count_eq_zero.mpr hp
          rw [h0]
          simpa using hrec.1
      · intro hps
        rw [hsplit, List.count_append, hpass.2.2.1 hps,
          hrec.2 (hpass.2.2.2 hps)]

/-- Concrete instantiation of `reminder_at_most_once`: two identical
back-to-back passes on day 95 over `witnessTxs`, and a pass starting
with the pair already marked sent. -/
theorem reminder_at_most_once_witness :
    (runPasses witnessSendOk [(95, witnessTxs), (95, witnessTxs)] []).2.count
      (1, Milestone.inspectionDate) ≤ 1 ∧
    (runPasses witnessSendOk [(95, witnessTxs)]
      [(1, Milestone.inspectionDate)]).2.count (1, Milestone.inspectionDate)
      = 0 := by
  refine ⟨(reminder_at_most_once witnessSendOk
      [(95, witnessTxs), (95, witnessTxs)] [] (1, Milestone.inspectionDate)).1,
    (reminder_at_most_once witnessSendOk [(95, witnessTxs)]
      [(1, Milestone.inspectionDate)] (1, Milestone.inspectionDate)).2 ?_⟩
  exact List.mem_singleton.mpr rfl

/-- Splitting a list by a Boolean outcome preserves total length. -/
lemma length_filter_bool (p : α → Bool) (l : List α) :
    (l.filter p).length + (l.filter (fun x => !(p x))).length = l.length := by
  induction l with
  | nil => rfl
  | cons a rest ih =>
      by_cases h : p a = true
      · rw [List.filter_cons_of_pos h,
          List.filter_cons_of_neg (by rw [h]; decide)]
        simp only [List.length_cons]
        omega
      · have h' : p a = false := by rwa [Bool.not_eq_true] at h
        rw [List.filter_cons_of_neg h,
          List.filter_cons_of_pos (by rw [h']; decide)]
        simp only [List.length_cons]
        omega

/-- Exact computation of a pass over fresh, duplicate-free due pairs:
every pair is processed, sends and failures are tallied, and the
sent-set is extended by all processed pairs. -/
lemma foldl_stepPair_eq (sendOk : Pair → Bool) (ps : List Pair)
    (sum₀ : Summary) (sent₀ inv₀ : List Pair)
    (hnd : ps.Nodup) (hdisj : ∀ q ∈ ps, q ∉ sent₀) :
    ps.foldl (stepPair sendOk) (sum₀, sent₀, inv₀) =
      (⟨sum₀.sent + (ps.filter sendOk).length,
        sum₀.errors + (ps.filter (fun q => !(sendOk q))).length⟩,
        ps.reverse ++ sent₀, inv₀ ++ ps) := by
  induction ps generalizing sum₀ sent₀ inv₀ with
  | nil => simp
  | cons q rest ih =>
      have hq : q ∉ sent₀ := hdisj q (List.mem_cons_self q rest)
      have hnd' := List.nodup_cons.mp hnd
      have hrest : ∀ x ∈ rest, x ∉ q :: sent₀ := by
        intro x hx hc
        rcases List.mem_cons.mp hc with hc | hc
        · exact hnd'.1 (hc ▸ hx)
        · exact hdisj x (List.mem_cons_of_mem q hx) hc
      rw [List.foldl_cons]
      by_cases hs : sendOk q = true
      · have hstep : stepPair sendOk (sum₀, sent₀, inv₀) q
            = ({ sum₀ with sent := sum₀.sent + 1 }, q :: sent₀,
                inv₀ ++ [q]) := by
          unfold stepPair
          dsimp only
          rw [if_neg hq, if_pos hs]
        rw [hstep, ih _ _ _ hnd'.2 hrest,
          List.filter_cons_of_pos hs,
          List.filter_cons_of_neg (by rw [hs]; decide)]
        simp only [Prod.mk.injEq, Summary.mk.injEq, List.length_cons,
          List.reverse_cons, List.append_assoc, List.singleton_append]
        exact ⟨⟨by omega, trivial⟩, trivial⟩
      · have hstep : stepPair sendOk (sum₀, sent₀, inv₀) q
            = ({ sum₀ with errors := sum₀.errors + 1 }, q :: sent₀,
                inv₀ ++ [q]) := by
          unfold stepPair
          dsimp only
          rw [if_neg hq, if_neg hs]
        have hs' : sendOk q = false := by rwa [Bool.not_eq_true] at hs
        rw [hstep, ih _ _ _ hnd'.2 hrest,
          List.filter_cons_of_neg hs,
          List.filter_cons_of_pos (by rw [hs']; decide)]
        simp only [Prod.mk.injEq, Summary.mk.injEq, List.length_cons,
          List.reverse_cons, List.append_assoc, List.singleton_append]
        exact ⟨⟨trivial, by omega⟩, trivial⟩

/-- C4.  A scanner pass over fresh due pairs is isolated per item: every
due (transaction, milestone) pair is handed to the Notification Sender
regardless of other pairs' failures — the pass never aborts early — each
failed send is tallied as one error, each successful send as one success,
the totals add up to the number of processed pairs, and the synchronous
manual trigger returns exactly this `{sent, errors}` summary. -/
theorem scanPass_isolated (sendOk : Pair → Bool) (today : Int)
    (txs : List ScanTx) (sent : List Pair)
    (hnd : (passPairs today txs).Nodup)
    (hdisj : ∀ q ∈ passPairs today txs, q ∉ sent) :
    (scanPass sendOk today txs sent).2.2 = passPairs today txs ∧
    (scanPass sendOk today txs sent).1.sent
        = ((passPairs today txs).filter sendOk).length ∧
    (scanPass sendOk today txs sent).1.errors
        = ((passPairs today txs).filter (fun q => !(sendOk q))).length ∧
    (scanPass sendOk today txs sent).1.sent
        + (scanPass sendOk today txs sent).1.errors
        = (passPairs today txs).length ∧
    triggerReminders sendOk today txs sent
        = (scanPass sendOk today txs sent).1 := by
  have h : scanPass sendOk today txs sent =
      (⟨0 + ((passPairs today txs).filter sendOk).length,
        0 + ((passPairs today txs).filter (fun q => !(sendOk q))).length⟩,
        (passPairs today txs).reverse ++ sent, [] ++ passPairs today txs) :=
    foldl_stepPair_eq sendOk (passPairs today txs) ⟨0, 0⟩ sent [] hnd hdisj
  refine ⟨?_, ?_, ?_, ?_, rfl⟩
  · rw [h]
    simp
  · rw [h]
    simp
  · rw [h]
    simp
  · rw [h]
    simpa using length_filter_bool sendOk (passPairs today txs)

/-- Concrete instantiation of `scanPass_isolated`: ten due pairs on
day 95, the sender failing exactly on transaction 1's option-period
milestone: one error, nine successes, no early abort. -/
theorem scanPass_isolated_witness :
    (scanPass witnessSendOk 95 witnessTxs []).1.sent
        + (scanPass witnessSendOk 95 witnessTxs []).1.errors
        = (passPairs 95 witnessTxs).length ∧
    (scanPass witnessSendOk 95 witnessTxs []).1.errors
        = ((passPairs 95 witnessTxs).filter
            (fun q => !(witnessSendOk q))).length := by
  have h := scanPass_isolated witnessSendOk 95 witnessTxs []
    (by decide) (by intro q _ hc; cases hc)
  exact ⟨h.2.2.2.1, h.2.2.1⟩

/-- C2.  For every stored transaction and every milestone, the effective
date resolves to the override value from the modified-deadlines map
when one is present for that milestone and to the computed value
otherwise — the resolution is a pure function of the stored row, so
this holds identically on every call — and the computed milestone
columns of the returned object are the stored ones, retained unchanged
alongside the override map. -/
theorem effectiveDate_spec (t : TxRecord) (m : Milestone) :
    (∀ d : String,
      (rowToView t).modified_deadlines.lookup (milestoneKey m) = some d →
        effectiveDate (rowToView t) m = some d) ∧
    ((rowToView t).modified_deadlines.lookup (milestoneKey m) = none →
      effectiveDate (rowToView t) m = computedDate (rowToView t) m) ∧
    computedDate (rowToView t) m = computedDateRec t m := by
  refine ⟨?_, ?_, ?_⟩
  · intro d hd
    unfold effectiveDate
    rw [hd]
  · intro hd
    unfold effectiveDate
    rw [hd]
  · cases m <;> rfl

/-- Concrete instantiation of `effectiveDate_spec`: a transaction with
an overridden option-period end uses the override for that milestone
and the stored computed date for the un-overridden inspection
milestone. -/
theorem effectiveDate_spec_witness :
    effectiveDate (rowToView overriddenTx) .optionPeriodEnd
        = some "2024-02-01" ∧
    effectiveDate (rowToView overriddenTx) .inspectionDate
        = computedDate (rowToView overriddenTx) .inspectionDate := by
  refine ⟨(effectiveDate_spec overriddenTx .optionPeriodEnd).1
      "2024-02-01" (by decide),
    (effectiveDate_spec overriddenTx .inspectionDate).2.1 (by decide)⟩

/-- C5 counterexample.  A submission whose contract date is present but
not a valid date (`"not-a-date"`) is accepted by the create endpoint —
not rejected with a validation error — refuting the claim at this
input. -/
theorem createTransaction_invalid_date_accepted :
    validISODate "not-a-date" = false ∧
    createTransaction invalidDateBody = .created := by
  constructor
  · decide
  · decide

/-- C5 amended.  A submission with an absent contract date fails (the
schema's NOT NULL constraint, surfaced as a generic creation failure),
and the SQLite endpoint computes no milestones at all; with every
NOT NULL field present the submission succeeds regardless of the
contract date's validity.  On the deadline-calculator path (modelled
from the spec), an absent or invalid contract date yields an explicit
error before any milestone computation, and a well-formed contract date
never fails. -/
theorem createTransaction_validation (b : CreateBody)
    (contractMsOf : String → Timestamp) (closingMs : Timestamp)
    (s : String) :
    (b.contract_date = none → createTransaction b = .creationFailed) ∧
    (b.property_address.isSome → b.client_name.isSome →
      b.transaction_type.isSome → b.contract_date.isSome →
      b.closing_date.isSome → createTransaction b = .created) ∧
    addTransaction none contractMsOf closingMs
        = .error "invalid contract date" ∧
    (validISODate s = false →
      addTransaction (some s) contractMsOf closingMs
        = .error "invalid contract date") ∧
    (validISODate s = true →
      addTransaction (some s) contractMsOf closingMs
        = .ok (calcDeadlines (contractMsOf s) closingMs)) := by
  refine ⟨?_, ?_, rfl, ?_, ?_⟩
  · intro h
    unfold createTransaction createViolatesNotNull
    rw [h]
    simp
  · intro h1 h2 h3 h4 h5
    unfold createTransaction createViolatesNotNull
    obtain ⟨a1, e1⟩ := Option.isSome_iff_exists.mp h1
    obtain ⟨a2, e2⟩ := Option.isSome_iff_exists.mp h2
    obtain ⟨a3, e3⟩ := Option.isSome_iff_exists.mp h3
    obtain ⟨a4, e4⟩ := Option.isSome_iff_exists.mp h4
    obtain ⟨a5, e5⟩ := Option.isSome_iff_exists.mp h5
    rw [e1, e2, e3, e4, e5]
    rfl
  · intro h
    unfold addTransaction
    dsimp only
    rw [if_neg (by rw [h]; intro hc; cases hc)]
  · intro h
    unfold addTransaction
    dsimp only
    rw [if_pos h]

/-- Concrete instantiation of `createTransaction_validation`: a body
with all NOT NULL fields present is created, an absent contract date
fails, and the modelled calculator path accepts `2024-01-01`. -/
theorem createTransaction_validation_witness :
    createTransaction invalidDateBody = .created ∧
    createTransaction { invalidDateBody with contract_date := none }
        = .creationFailed ∧
    addTransaction (some "2024-01-01") (fun _ => 0) 0
        = .ok (calcDeadlines 0 0) := by
  refine ⟨?_, ?_, ?_⟩
  · exact (createTransaction_validation invalidDateBody (fun _ => 0) 0
      "2024-01-01").2.1 (by decide) (by decide) (by decide) (by decide)
      (by decide)
  · exact (createTransaction_validation
      { invalidDateBody with contract_date := none } (fun _ => 0) 0
      "2024-01-01").1 rfl
  · exact (createTransaction_validation invalidDateBody (fun _ => 0) 0
      "2024-01-01").2.2.2.2 (by decide)

/-- C9 counterexample.  A supplied list price of `"-5"` parses
successfully and is stored as `-5`, a negative number — refuting the
claimed non-negativity at this input. -/
theorem storedListPrice_negative :
    storedListPrice (some "-5") = -5 ∧ storedListPrice (some "-5") < 0 := by
  constructor
  · decide
  · decide

/-- C9 amended.  The stored list price equals the numeric parse of the
supplied value whenever the parse succeeds — including negative values,
so no non-negativity holds — and defaults to `0` when the value is
absent or not parsable as a number. -/
theorem storedListPrice_spec (v : Option String) :
    (parseFloatInt v = none → storedListPrice v = 0) ∧
    (∀ n : Int, parseFloatInt v = some n → storedListPrice v = n) := by
  constructor
  · intro h
    unfold storedListPrice
    rw [h]
  · intro n h
    unfold storedListPrice
    rw [h]
    dsimp only
    by_cases hn : n = 0
    · rw [if_pos hn, hn]
    · rw [if_neg hn]

/-- Concrete instantiation of `storedListPrice_spec`: `"42"` is stored
as `42`, an absent value as `0`. -/
theorem storedListPrice_spec_witness :
    storedListPrice (some "42") = 42 ∧ storedListPrice none = 0 := by
  refine ⟨(storedListPrice_spec (some "42")).2 42 (by decide),
    (storedListPrice_spec none).1 (by decide)⟩

end AsistantPro
